import Mathlib

/-!
# Verification of the rag-explorer retrieval and grading core

A shallow embedding of the retrieval strategies (vector, hybrid, combined),
the keyword extractor and the answer grader of the `rag-explorer` repository,
together with theorems settling the specification claims.

Conventions of the embedding:

* PostgreSQL store operators that the repository merely consumes
  (`<=>` cosine distance, `ts_rank_cd`/`@@` lexical ranking and matching,
  field-weighted ranking) are parameters gathered in a `StoreOps` record;
  the SQL queries written by the repository (branch selection, `LIMIT`,
  `FULL OUTER JOIN`, `COALESCE`, weighted sums, `ILIKE` phrase boost,
  `ORDER BY`) are modelled in full.
* SQL `ORDER BY` is modelled by a deterministic stable sort
  (`List.insertionSort`).
* JavaScript strings are Lean `String`s; the character-level operations
  (`toLowerCase`, `includes`, `split`, regex strips used by the code) are
  modelled on `List Char`.
* `to_tsquery` raises a syntax error on the empty pattern, so the hybrid and
  combined searches are `Except`-valued; all other paths are total.
-/

/-- An apostrophe character, used inside the grader's phrase constants. -/
def apos : String := (Char.ofNat 39).toString

/-! ## Character-list helpers (JS string operations) -/

/-- Substring containment, `needle.isPrefixOf (hay.drop i)` for some `i`:
the model of JavaScript `String.prototype.includes` and of SQL's literal
containment. -/
def containsSub (needle hay : List Char) : Bool :=
  (List.range (hay.length + 1)).any (fun i => needle.isPrefixOf (hay.drop i))

/-- JavaScript `hay.includes(needle)` on strings. -/
def jsIncludes (hay needle : String) : Bool :=
  containsSub needle.data hay.data

/-- Lowercased character list of a string: model of `s.toLowerCase()` for
the ASCII text this repository handles. -/
def lowerL (s : String) : List Char :=
  s.data.map Char.toLower

/-- Split a character list at maximal runs of separator characters, exactly
like JavaScript `s.split(/[sep]+/)`: boundary separators produce empty
fragments, interior runs produce none.  `acc` is the fragment being built
(reversed) and `inSep` records whether the previous character was a
separator, so that a whole run emits a single boundary. -/
def splitRunsAux (sep : Char → Bool) : List Char → List Char → Bool → List (List Char)
  | [], acc, _ => [acc.reverse]
  | c :: rest, acc, inSep =>
    if sep c then
      if inSep then
        splitRunsAux sep rest acc true
      else
        acc.reverse :: splitRunsAux sep rest [] true
    else
      splitRunsAux sep rest (c :: acc) false

/-- JavaScript `split` on a one-character-class regex with `+`. -/
def splitRuns (sep : Char → Bool) (l : List Char) : List (List Char) :=
  splitRunsAux sep l [] false

/-- Keep the first occurrence of each element, dropping later duplicates:
the model of JavaScript `[...new Set(xs)]`. -/
def dedupKeepFirstAux [DecidableEq α] : List α → List α → List α
  | [], _ => []
  | a :: rest, seen =>
    if a ∈ seen then dedupKeepFirstAux rest seen
    else a :: dedupKeepFirstAux rest (a :: seen)

/-- Model of `[...new Set(xs)]`. -/
def dedupKeepFirst [DecidableEq α] (l : List α) : List α :=
  dedupKeepFirstAux l []

/-! ## SQL `LIKE` / `ILIKE` pattern matching

`likeMatch p t` models PostgreSQL `t LIKE p`: `%` matches any sequence
(a pattern `'%' ++ p` matches `t` exactly when `p` matches some suffix of
`t`), `_` matches any single character, a backslash escapes the following
pattern character.  (PostgreSQL rejects a pattern ending in a lone escape
character; such a pattern matches nothing here, and never arises from the
repository's `'%' || query || '%'` patterns.)  `ILIKE` is `LIKE` after
case-folding both sides. -/

def likeMatch : List Char → List Char → Bool
  | [], t => t.isEmpty
  | c :: p, t =>
    if c = '%' then
      t.tails.any (fun t2 => likeMatch p t2)
    else if c = '_' then
      (match t with
       | [] => false
       | _ :: t2 => likeMatch p t2)
    else if c = '\\' then
      (match p with
       | [] => false
       | e :: p2 =>
         match t with
         | [] => false
         | a :: t2 => a = e && likeMatch p2 t2)
    else
      (match t with
       | [] => false
       | a :: t2 => a = c && likeMatch p t2)

/-- Model of `content ILIKE '%' || q || '%'`, the phrase-boost test of the combined
strategy. -/
def ilikeContains (content q : String) : Bool :=
  likeMatch ('%' :: (lowerL q ++ ['%'])) (lowerL content)

/-- The query text contains none of the `LIKE` metacharacters `%`, `_`, `\`
(checked on the case-folded text; case-folding never introduces or removes a
metacharacter). -/
def noLikeMeta (q : String) : Bool :=
  (lowerL q).all (fun c => !(c = '%' || c = '_' || c = '\\'))

/-! ## Data model -/

/-- A document row of a `documents_<dim>` table. -/
structure Doc where
  id : Nat
  content : String
  contentType : String
  metadata : String
  xetoSpecName : Option String
  xetoLibrary : Option String
  embedding : List ℚ
deriving DecidableEq, Repr

/-- The PostgreSQL operators the queries consume, kept abstract: the
`<=>` cosine-distance operator of pgvector, the `@@`/`ts_rank_cd` lexical
match and rank against `to_tsquery(pattern)`, and the field-weighted rank
against `plainto_tsquery(queryText)` used by the combined strategy's
`bm25_results` branch. -/
structure StoreOps where
  dist : List ℚ → List ℚ → ℚ
  tsMatch : String → String → Bool
  tsRankCd : String → String → ℚ
  bm25Rank : Doc → String → ℚ

/-- The `options` argument of the hybrid and combined searches; an absent
field is `none`. -/
structure SearchOptions where
  vectorWeight : Option ℚ := none
  keywordWeight : Option ℚ := none
  bm25Weight : Option ℚ := none
deriving DecidableEq, Repr

/-- JavaScript `x || d` for an optional numeric option: an absent or zero
(falsy) value falls back to the default. -/
def jsOr (o : Option ℚ) (d : ℚ) : ℚ :=
  match o with
  | none => d
  | some x => if x = 0 then d else x

/-! ## Keyword extractor (`extractKeywords`, identical in the hybrid and
combined strategies) -/

/-- The fixed stop-word list. -/
def stopWords : List String :=
  ["a", "an", "the", "and", "or", "but", "is", "are", "in", "on", "at",
   "to", "for", "with"]

/-- Class `\w` of JavaScript regexes: ASCII letters, digits and underscore. -/
def isWordChar (c : Char) : Bool :=
  c.isAlphanum || c = '_'

/-- Class `\s` of JavaScript regexes, restricted to the whitespace this
repository's ASCII inputs can contain (plus NBSP). -/
def isSpaceChar (c : Char) : Bool :=
  c = ' ' || c = '\t' || c = '\n' || c = '\r' ||
    c = Char.ofNat 11 || c = Char.ofNat 12 || c = Char.ofNat 160

/-- The token list before deduplication: lowercase, strip every character
that is neither a word character nor whitespace (`replace(/[^\w\s]/g, '')`),
split on whitespace runs, keep tokens longer than 2 that are not stop
words. -/
def filteredTokens (q : String) : List String :=
  ((splitRuns isSpaceChar
      ((lowerL q).filter (fun c => isWordChar c || isSpaceChar c))).map
    (fun w => String.mk w)).filter
      (fun w => w.length > 2 && !(stopWords.contains w))

/-- Model of `extractKeywords(queryText)`. -/
def extractKeywords (q : String) : List String :=
  dedupKeepFirst (filteredTokens q)

/-! ## Sorting (SQL `ORDER BY`) -/

/-- Relation of `ORDER BY key ASC`. -/
def ascBy (key : α → ℚ) (a b : α) : Prop := key a ≤ key b

/-- Relation of `ORDER BY key DESC`. -/
def descBy (key : α → ℚ) (a b : α) : Prop := key b ≤ key a

instance (key : α → ℚ) : DecidableRel (ascBy key) :=
  fun a b => inferInstanceAs (Decidable (key a ≤ key b))

instance (key : α → ℚ) : DecidableRel (descBy key) :=
  fun a b => inferInstanceAs (Decidable (key b ≤ key a))

instance (key : α → ℚ) : IsTotal α (ascBy key) :=
  ⟨fun a b => le_total (key a) (key b)⟩

instance (key : α → ℚ) : IsTrans α (ascBy key) :=
  ⟨fun _ _ _ h h2 => le_trans h h2⟩

instance (key : α → ℚ) : IsTotal α (descBy key) :=
  ⟨fun a b => le_total (key b) (key a)⟩

instance (key : α → ℚ) : IsTrans α (descBy key) :=
  ⟨fun _ _ _ h h2 => le_trans h2 h⟩

/-- Sort ascending by a rational key. -/
def sortAsc (key : α → ℚ) (l : List α) : List α :=
  l.insertionSort (ascBy key)

/-- Sort descending by a rational key. -/
def sortDesc (key : α → ℚ) (l : List α) : List α :=
  l.insertionSort (descBy key)

/-! ## Vector search strategy -/

/-- A row returned by the vector strategy. -/
structure VCand where
  id : Nat
  content : String
  contentType : String
  metadata : String
  xetoSpecName : Option String
  xetoLibrary : Option String
  similarity : ℚ
deriving DecidableEq, Repr

/-- The `WHERE content_type = $2` filter shared by every branch query. -/
def filterCT (table : List Doc) (ct : String) : List Doc :=
  table.filter (fun d => d.contentType == ct)

/-- The candidate a document row is mapped to by the vector strategy:
`similarity = 1 - (embedding <=> $1::vector)`. -/
def vCand (ops : StoreOps) (emb : List ℚ) (d : Doc) : VCand :=
  { id := d.id, content := d.content, contentType := d.contentType,
    metadata := d.metadata, xetoSpecName := d.xetoSpecName,
    xetoLibrary := d.xetoLibrary,
    similarity := 1 - ops.dist d.embedding emb }

/-- Model of `VectorSearchStrategy.search`: filter by content type, order by
distance to the query embedding, truncate to `topK`, report
`1 - distance` as the similarity. -/
def vectorSearch (ops : StoreOps) (table : List Doc) (emb : List ℚ)
    (ct : String) (topK : Nat) : List VCand :=
  ((sortAsc (fun d => ops.dist d.embedding emb) (filterCT table ct)).take
      topK).map (vCand ops emb)

/-! ## Hybrid search strategy -/

/-- A row returned by the hybrid strategy. -/
structure HCand where
  id : Nat
  content : String
  contentType : String
  metadata : String
  xetoSpecName : Option String
  xetoLibrary : Option String
  vectorSimilarity : ℚ
  keywordSimilarity : ℚ
  similarity : ℚ
deriving DecidableEq, Repr

/-- A row of the `combined_results` CTE of the hybrid query: the document
columns (coalesced from the vector side when present, else the keyword
side) and the two branch scores, `none` when the document is absent from
that branch. -/
structure HRow where
  doc : Doc
  vs : Option ℚ
  ks : Option ℚ
deriving DecidableEq, Repr

/-- The `vector_results` CTE: content-type filter, order by distance,
`LIMIT lim`, with `vector_similarity = 1 - (embedding <=> $1)`. -/
def vBranch (ops : StoreOps) (table : List Doc) (emb : List ℚ)
    (ct : String) (lim : Nat) : List (Doc × ℚ) :=
  ((sortAsc (fun d => ops.dist d.embedding emb) (filterCT table ct)).take
      lim).map (fun d => (d, 1 - ops.dist d.embedding emb))

/-- The `keyword_results` CTE: content-type filter plus
`to_tsvector(content) @@ to_tsquery(pattern)`, ordered by
`ts_rank_cd` descending, `LIMIT lim`. -/
def kBranch (ops : StoreOps) (table : List Doc) (pattern : String)
    (ct : String) (lim : Nat) : List (Doc × ℚ) :=
  ((sortDesc (fun d => ops.tsRankCd d.content pattern)
      (table.filter
        (fun d => d.contentType == ct && ops.tsMatch d.content pattern))).take
      lim).map (fun d => (d, ops.tsRankCd d.content pattern))

/-- The `FULL OUTER JOIN ... ON v.id = k.id` of the two scored branches,
coalescing the document columns from the vector side when present. -/
def vkJoin (V K : List (Doc × ℚ)) : List HRow :=
  (V.flatMap (fun v =>
    match K.filter (fun k => k.1.id == v.1.id) with
    | [] => [⟨v.1, some v.2, none⟩]
    | ms => ms.map (fun k => ⟨v.1, some v.2, some k.2⟩)))
  ++ ((K.filter (fun k => V.all (fun v => !(v.1.id == k.1.id)))).map
      (fun k => ⟨k.1, none, some k.2⟩))

/-- The `combined_score`: `COALESCE(v.vector_similarity, 0) * $5 +
COALESCE(k.keyword_similarity, 0) * $6`. -/
def hScore (wv wk : ℚ) (r : HRow) : ℚ :=
  r.vs.getD 0 * wv + r.ks.getD 0 * wk

/-- The output row of the hybrid query: the reported per-branch
similarities divide the weighted values back by their weights. -/
def hCand (wv wk : ℚ) (r : HRow) : HCand :=
  { id := r.doc.id, content := r.doc.content,
    contentType := r.doc.contentType, metadata := r.doc.metadata,
    xetoSpecName := r.doc.xetoSpecName, xetoLibrary := r.doc.xetoLibrary,
    vectorSimilarity := r.vs.getD 0 * wv / wv,
    keywordSimilarity := r.ks.getD 0 * wk / wk,
    similarity := hScore wv wk r }

/-- The hybrid pipeline for given effective weights: keyword extraction,
the two over-fetching (`LIMIT $3 * 2`) branch queries, the outer join,
weighted scoring, `ORDER BY combined_score DESC LIMIT $3`.  When the
extracted keyword list is empty the pattern passed to `to_tsquery` is the
empty string, which PostgreSQL rejects with a tsquery syntax error, so the
whole query fails. -/
def hybridFusion (ops : StoreOps) (table : List Doc) (emb : List ℚ)
    (queryText ct : String) (topK : Nat) (wv wk : ℚ) :
    Except String (List HCand) :=
  let keywords := extractKeywords queryText
  if keywords.isEmpty then
    .error "syntax error in tsquery"
  else
    let pattern := String.intercalate " | " keywords
    let rows := vkJoin (vBranch ops table emb ct (topK * 2))
      (kBranch ops table pattern ct (topK * 2))
    .ok (((sortDesc (hScore wv wk) rows).take topK).map (hCand wv wk))

/-- Model of `HybridSearchStrategy.search`: defaults `vectorWeight = 0.7`,
`keywordWeight = 0.3` applied to falsy option values. -/
def hybridSearch (ops : StoreOps) (table : List Doc) (emb : List ℚ)
    (queryText ct : String) (topK : Nat) (options : SearchOptions) :
    Except String (List HCand) :=
  hybridFusion ops table emb queryText ct topK
    (jsOr options.vectorWeight (7/10)) (jsOr options.keywordWeight (3/10))

/-! ## Combined search strategy -/

/-- A row returned by the combined strategy. -/
structure CCand where
  id : Nat
  content : String
  contentType : String
  metadata : String
  xetoSpecName : Option String
  xetoLibrary : Option String
  vectorSimilarity : ℚ
  keywordSimilarity : ℚ
  bm25Similarity : ℚ
  similarity : ℚ
deriving DecidableEq, Repr

/-- A row of the `combined_results` CTE of the combined query: document
columns and the three branch scores, `none` when absent from a branch. -/
structure CRow where
  doc : Doc
  vs : Option ℚ
  ks : Option ℚ
  bs : Option ℚ
deriving DecidableEq, Repr

/-- The `bm25_results` CTE: content-type filter, field-weighted
`ts_rank_cd` against `plainto_tsquery(queryText)` descending,
`LIMIT lim`. -/
def bBranch (ops : StoreOps) (table : List Doc) (queryText : String)
    (ct : String) (lim : Nat) : List (Doc × ℚ) :=
  ((sortDesc (fun d => ops.bm25Rank d queryText) (filterCT table ct)).take
      lim).map (fun d => (d, ops.bm25Rank d queryText))

/-- The second `FULL OUTER JOIN` (`vk_join` with `bm25_results`
`ON vk.id = b.id`), coalescing document columns from the `vk` side when
present. -/
def vkbJoin (VK : List HRow) (B : List (Doc × ℚ)) : List CRow :=
  (VK.flatMap (fun r =>
    match B.filter (fun b => b.1.id == r.doc.id) with
    | [] => [⟨r.doc, r.vs, r.ks, none⟩]
    | ms => ms.map (fun b => ⟨r.doc, r.vs, r.ks, some b.2⟩)))
  ++ ((B.filter (fun b => VK.all (fun r => !(r.doc.id == b.1.id)))).map
      (fun b => ⟨b.1, none, none, some b.2⟩))

/-- The `combined_score` of the combined query: three-way weighted sum with
absent branch scores coalesced to `0`. -/
def cScore (wv wk wb : ℚ) (r : CRow) : ℚ :=
  r.vs.getD 0 * wv + r.ks.getD 0 * wk + r.bs.getD 0 * wb

/-- The `boosted_score`: `combined_score * 1.2` when
`content ILIKE '%' || $5 || '%'` ($5 is the raw query text), else
`combined_score`. -/
def boostedScore (queryText : String) (wv wk wb : ℚ) (r : CRow) : ℚ :=
  if ilikeContains r.doc.content queryText then
    cScore wv wk wb r * (6/5)
  else
    cScore wv wk wb r

/-- The output row of the combined query. -/
def cCand (queryText : String) (wv wk wb : ℚ) (r : CRow) : CCand :=
  { id := r.doc.id, content := r.doc.content,
    contentType := r.doc.contentType, metadata := r.doc.metadata,
    xetoSpecName := r.doc.xetoSpecName, xetoLibrary := r.doc.xetoLibrary,
    vectorSimilarity := r.vs.getD 0 * wv / wv,
    keywordSimilarity := r.ks.getD 0 * wk / wk,
    bm25Similarity := r.bs.getD 0 * wb / wb,
    similarity := boostedScore queryText wv wk wb r }

/-- The combined pipeline for given effective weights: three `LIMIT $3 * 3`
branch queries, the two-stage outer join, weighted scoring, phrase boost,
`ORDER BY boosted_score DESC LIMIT $3`.  As in the hybrid strategy, an
empty extracted-keyword list makes `to_tsquery` fail. -/
def combinedFusion (ops : StoreOps) (table : List Doc) (emb : List ℚ)
    (queryText ct : String) (topK : Nat) (wv wk wb : ℚ) :
    Except String (List CCand) :=
  let keywords := extractKeywords queryText
  if keywords.isEmpty then
    .error "syntax error in tsquery"
  else
    let pattern := String.intercalate " | " keywords
    let rows := vkbJoin
      (vkJoin (vBranch ops table emb ct (topK * 3))
        (kBranch ops table pattern ct (topK * 3)))
      (bBranch ops table queryText ct (topK * 3))
    .ok (((sortDesc (boostedScore queryText wv wk wb) rows).take topK).map
      (cCand queryText wv wk wb))

/-- Model of `CombinedSearchStrategy.search`: defaults `vectorWeight = 0.5`,
`keywordWeight = 0.3`, `bm25Weight = 0.2` applied to falsy option
values. -/
def combinedSearch (ops : StoreOps) (table : List Doc) (emb : List ℚ)
    (queryText ct : String) (topK : Nat) (options : SearchOptions) :
    Except String (List CCand) :=
  combinedFusion ops table emb queryText ct topK
    (jsOr options.vectorWeight (1/2)) (jsOr options.keywordWeight (3/10))
    (jsOr options.bm25Weight (1/5))

/-! ## Answer grader (`countKeywordMatches`) -/

/-- The fixed list of negation phrases. -/
def negativePatterns : List String :=
  ["does not provide",
   "doesn" ++ apos ++ "t provide",
   "no information",
   "not mentioned",
   "not specified",
   "not found",
   "not available",
   "cannot find",
   "could not find",
   "unable to find",
   "the context does not",
   "the provided context does not",
   "the information is not",
   "no details",
   "no data",
   "not present",
   "not included"]

/-- Sentence terminators of the `split(/[.!?]+/)` sentence check. -/
def isSentenceTerm (c : Char) : Bool :=
  c = '.' || c = '!' || c = '?'

/-- The per-keyword check of the early pure-negation return: some negation
phrase, glued to the keyword by `" about "`, `" on "` or `" regarding "`,
occurs in the lowercased response. -/
def inNegContext (lowerText : List Char) (kwLower : List Char) : Bool :=
  negativePatterns.any (fun pat =>
    containsSub (pat.data ++ " about ".data ++ kwLower) lowerText ||
    containsSub (pat.data ++ " on ".data ++ kwLower) lowerText ||
    containsSub (pat.data ++ " regarding ".data ++ kwLower) lowerText)

/-- Model of `countKeywordMatches(text, keywords)`, with JavaScript null/emptiness
handling: a missing or empty response, or a missing or empty keyword list,
scores `0`. -/
def countKeywordMatches (text : Option String) (keywords : Option (List String)) : Nat :=
  match text, keywords with
  | none, _ => 0
  | _, none => 0
  | some t, some ks =>
    if t = "" || ks.isEmpty then 0
    else
      let lowerText := lowerL t
      let hasNeg := negativePatterns.any (fun pat => containsSub pat.data lowerText)
      if hasNeg && ks.all (fun kw => inNegContext lowerText (lowerL kw)) then
        0
      else
        ks.countP (fun kw =>
          let kwLower := lowerL kw
          containsSub kwLower lowerText &&
            (if hasNeg then
              let sentences := splitRuns isSentenceTerm lowerText
              (sentences.filter (fun s => containsSub kwLower s)).any
                (fun s => !(negativePatterns.any (fun pat => containsSub pat.data s)))
            else
              true))

/-! ## Claim C7's negated-occurrence predicates -/

/-- The positions at which `needle` occurs in `hay`. -/
def occPositions (needle hay : List Char) : List Nat :=
  (List.range (hay.length + 1)).filter (fun i => needle.isPrefixOf (hay.drop i))

/-- All negated constructions for a keyword:
`negationPhrase ++ " about "/" on "/" regarding " ++ keyword`. -/
def negConstructions (kwLower : List Char) : List (List Char) :=
  negativePatterns.flatMap (fun pat =>
    [pat.data ++ " about ".data ++ kwLower,
     pat.data ++ " on ".data ++ kwLower,
     pat.data ++ " regarding ".data ++ kwLower])

/-- Every occurrence of the keyword in the text lies inside an occurrence
of some negated construction. -/
def exclusivelyNegated (kwLower text : List Char) : Bool :=
  (occPositions kwLower text).all (fun i =>
    (negConstructions kwLower).any (fun c =>
      (occPositions c text).any (fun j =>
        j ≤ i && i + kwLower.length ≤ j + c.length)))

/-! ## Embedding-dimension lookup and the benchmark dispatch step -/

/-- Model of `getEmbeddingDimension(model)`: `null` for unsupported models. -/
def getEmbeddingDimension (model : String) : Option Nat :=
  if jsIncludes model "text-embedding-3-small" ||
      jsIncludes model "text-embedding-004" then
    some 1536
  else if jsIncludes model "text-embedding-3-large" then
    some 3072
  else if jsIncludes model "gemini-embedding" then
    some 768
  else
    none

/-- Outcome of one embedding-model combination of `runBenchmark`. -/
inductive BenchmarkOutcome where
  | skipped
  | results (rs : List VCand)
deriving DecidableEq, Repr

/-- The dimension guard of `runBenchmark` followed by a vector-strategy
query against the selected `documents_<dim>` shard: a combination whose
model has no supported dimension is logged and skipped (`continue`), not
rejected with an error, and no store query runs for it. -/
def benchmarkVectorStep (ops : StoreOps) (tables : Nat → List Doc)
    (model : String) (emb : List ℚ) (ct : String) (topK : Nat) :
    Except String BenchmarkOutcome :=
  match getEmbeddingDimension model with
  | none => .ok .skipped
  | some dim => .ok (.results (vectorSearch ops (tables dim) emb ct topK))

/-! ## Concrete fixtures used by witnesses and counterexamples -/

/-- A document with content `"alpha"`. -/
def exDoc : Doc := ⟨1, "alpha", "t", "", none, none, [1]⟩

/-- A document with content `"gamma"`. -/
def exDoc2 : Doc := ⟨2, "gamma", "t", "", none, none, [2]⟩

/-- A two-document store. -/
def exTable : List Doc := [exDoc, exDoc2]

/-- Store operators whose distance is the discrete metric and whose
lexical operators match nothing. -/
def exOps : StoreOps :=
  ⟨fun a b => if a = b then 0 else 1, fun _ _ => false, fun _ _ => 0,
   fun _ _ => 0⟩

/-- Store operators under which document 2 is a strong lexical match. -/
def cexOps : StoreOps :=
  ⟨fun a _ => if a = [1] then 1/10 else 2/10,
   fun c _ => c == "gamma",
   fun c _ => if c == "gamma" then 10 else 0,
   fun _ _ => 0⟩

/-- A document whose content `"abc"` matches the pattern `%a_c%` without
containing `"a_c"`. -/
def c1Doc : Doc := ⟨1, "abc", "t", "", none, none, [1]⟩

/-- One-document store for the phrase-boost counterexample. -/
def c1Table : List Doc := [c1Doc]

/-- Store operators giving distance 0 and no lexical matches. -/
def c1Ops : StoreOps :=
  ⟨fun _ _ => 0, fun _ _ => false, fun _ _ => 0, fun _ _ => 0⟩

/-- The candidate the combined strategy returns for `c1Table` and query
`"a_c"`. -/
def c1Cand : CCand := ⟨1, "abc", "t", "", none, none, 1, 0, 0, 3/5⟩

/-- The result list of the phrase-boost witness run. -/
def c1Res : List CCand := [c1Cand]

/-- The spec's Answer Grader example response. -/
def c2Response : String :=
  "I don" ++ apos ++ "t have information about pressure sensors."

/-- A response that is a pure negated match for `"pressure"`. -/
def c7Response : String := "No information about pressure."

/-! ## Lemmas about deduplication -/

theorem mem_dedupKeepFirstAux [DecidableEq α] (l : List α) :
    ∀ (seen : List α) (a : α),
      a ∈ dedupKeepFirstAux l seen ↔ a ∈ l ∧ a ∉ seen := by
  induction l with
  | nil => intro seen a; simp [dedupKeepFirstAux]
  | cons b rest ih =>
    intro seen a
    by_cases hb : b ∈ seen
    · simp only [dedupKeepFirstAux, if_pos hb, ih, List.mem_cons]
      constructor
      · rintro ⟨h1, h2⟩; exact ⟨Or.inr h1, h2⟩
      · rintro ⟨h1 | h1, h2⟩
        · exact absurd (h1 ▸ hb) h2
        · exact ⟨h1, h2⟩
    · simp only [dedupKeepFirstAux, if_neg hb, List.mem_cons, ih,
        List.mem_cons, not_or]
      constructor
      · rintro (rfl | ⟨h1, h2, h3⟩)
        · exact ⟨Or.inl rfl, hb⟩
        · exact ⟨Or.inr h1, h3⟩
      · rintro ⟨rfl | h1, h2⟩
        · exact Or.inl rfl
        · by_cases hab : a = b
          · exact Or.inl hab
          · exact Or.inr ⟨h1, hab, h2⟩

theorem nodup_dedupKeepFirstAux [DecidableEq α] (l : List α) :
    ∀ seen : List α, (dedupKeepFirstAux l seen).Nodup := by
  induction l with
  | nil => intro seen; simp [dedupKeepFirstAux]
  | cons b rest ih =>
    intro seen
    by_cases hb : b ∈ seen
    · simpa [dedupKeepFirstAux, hb] using ih seen
    · simp only [dedupKeepFirstAux, if_neg hb]
      refine List.nodup_cons.mpr ⟨fun hmem => ?_, ih _⟩
      exact ((mem_dedupKeepFirstAux rest _ b).mp hmem).2 (List.mem_cons_self b seen)

theorem mem_dedupKeepFirst [DecidableEq α] (l : List α) (a : α) :
    a ∈ dedupKeepFirst l ↔ a ∈ l := by
  simp [dedupKeepFirst, mem_dedupKeepFirstAux]

theorem nodup_dedupKeepFirst [DecidableEq α] (l : List α) :
    (dedupKeepFirst l).Nodup :=
  nodup_dedupKeepFirstAux l []

/-! ## C4: the keyword extractor -/

/-- C4: for every input, `extractKeywords` returns the deduplicated
(set-semantics) version of the lowercased, punctuation-stripped,
whitespace-split token list with short tokens and stop words removed; the
empty input yields the empty set, and the spec's example yields
`{"co2sensor", "sensor"}`. -/
theorem extractKeywords_spec :
    (∀ q : String, (extractKeywords q).Nodup ∧
      ∀ w, w ∈ extractKeywords q ↔ w ∈ filteredTokens q) ∧
    extractKeywords "" = [] ∧
    extractKeywords "The Co2Sensor is a sensor." = ["co2sensor", "sensor"] := by
  refine ⟨fun q => ⟨nodup_dedupKeepFirst _, fun w => mem_dedupKeepFirst _ _⟩,
    ?_, ?_⟩
  · decide
  · decide

/-- Witness for C4 at a concrete input. -/
theorem extractKeywords_spec_witness :
    (extractKeywords "The Co2Sensor is a sensor.").Nodup :=
  (extractKeywords_spec.1 "The Co2Sensor is a sensor.").1

/-! ## C2: the spec's negated-match grading example -/

/-- C2 counterexample: on the spec's example response, the grader does not
return 0 — none of its fixed negation phrases occurs in the text. -/
theorem answerGrader_example_cex :
    countKeywordMatches (some c2Response) (some ["pressure"]) ≠ 0 := by
  decide

/-- C2 amended: the grader returns 1 on the spec's example — no negation
phrase of its fixed list occurs in the response, so `"pressure"` is counted
by plain substring presence. -/
theorem answerGrader_example_eq_one :
    countKeywordMatches (some c2Response) (some ["pressure"]) = 1 := by
  decide

/-! ## C10: grader bounds and degenerate inputs -/

/-- C10: the grader's count is a natural number bounded by the length of
the expected-keyword list, and it is 0 on a missing or empty response and
on a missing or empty keyword list. -/
theorem countKeywordMatches_bounds :
    (∀ (t : String) (ks : List String),
      countKeywordMatches (some t) (some ks) ≤ ks.length) ∧
    (∀ ks, countKeywordMatches none ks = 0) ∧
    (∀ ks, countKeywordMatches (some "") ks = 0) ∧
    (∀ t, countKeywordMatches t none = 0) ∧
    (∀ t, countKeywordMatches t (some []) = 0) := by
  refine ⟨fun t ks => ?_, fun ks => ?_, fun ks => ?_, fun t => ?_, fun t => ?_⟩
  · simp only [countKeywordMatches]
    split
    · exact Nat.zero_le _
    · split
      · exact Nat.zero_le _
      · exact List.countP_le_length _
  · cases ks <;> rfl
  · cases ks <;> simp [countKeywordMatches]
  · cases t <;> rfl
  · cases t <;> simp [countKeywordMatches]

/-! ## C7: the pure-negation early return -/

/-- C7: if some negation phrase occurs in the lowercased response and every
expected keyword occurs exclusively inside a negated construction
(`negationPhrase ++ " about "/" on "/" regarding " ++ keyword`), the grader
returns 0. -/
theorem answerGrader_pureNegation (text : String) (ks : List String)
    (hks : ks ≠ [])
    (hneg : negativePatterns.any
      (fun pat => containsSub pat.data (lowerL text)) = true)
    (hall : ∀ kw ∈ ks, inNegContext (lowerL text) (lowerL kw) = true ∧
      exclusivelyNegated (lowerL kw) (lowerL text) = true) :
    countKeywordMatches (some text) (some ks) = 0 := by
  have hempty : ks.isEmpty = false := by
    cases ks with
    | nil => exact absurd rfl hks
    | cons a l => rfl
  by_cases ht : text = ""
  · simp [countKeywordMatches, ht]
  · simp only [countKeywordMatches]
    rw [if_neg (by simp [ht, hempty]), if_pos]
    rw [hneg, Bool.true_and]
    exact List.all_eq_true.mpr fun kw hkw => (hall kw hkw).1

/-- Witness for C7: a concrete pure-negation response. -/
theorem answerGrader_pureNegation_witness :
    countKeywordMatches (some c7Response) (some ["pressure"]) = 0 :=
  answerGrader_pureNegation c7Response ["pressure"] (by decide) (by decide)
    (by decide)

/-! ## C9: falsy weights fall back to the defaults -/

theorem jsOr_ne_zero (o : Option ℚ) (d : ℚ) (hd : d ≠ 0) : jsOr o d ≠ 0 := by
  cases o with
  | none => exact hd
  | some x =>
    by_cases hx : x = 0
    · simp only [jsOr, if_pos hx]; exact hd
    · simp only [jsOr, if_neg hx]; exact hx

/-- C9: explicitly passing 0 for any branch weight behaves exactly like
omitting the option (the `||` defaults treat 0 as falsy), and consequently
no effective branch weight is ever 0. -/
theorem zeroWeight_behaves_as_default :
    (∀ (ops : StoreOps) (table : List Doc) (emb : List ℚ)
      (q ct : String) (k : Nat) (o : SearchOptions),
      hybridSearch ops table emb q ct k { o with vectorWeight := some 0 } =
        hybridSearch ops table emb q ct k { o with vectorWeight := none } ∧
      hybridSearch ops table emb q ct k { o with keywordWeight := some 0 } =
        hybridSearch ops table emb q ct k { o with keywordWeight := none } ∧
      combinedSearch ops table emb q ct k { o with vectorWeight := some 0 } =
        combinedSearch ops table emb q ct k { o with vectorWeight := none } ∧
      combinedSearch ops table emb q ct k { o with keywordWeight := some 0 } =
        combinedSearch ops table emb q ct k { o with keywordWeight := none } ∧
      combinedSearch ops table emb q ct k { o with bm25Weight := some 0 } =
        combinedSearch ops table emb q ct k { o with bm25Weight := none }) ∧
    (∀ o : SearchOptions,
      jsOr o.vectorWeight (7/10) ≠ 0 ∧ jsOr o.keywordWeight (3/10) ≠ 0 ∧
      jsOr o.vectorWeight (1/2) ≠ 0 ∧ jsOr o.bm25Weight (1/5) ≠ 0) := by
  constructor
  · intro ops table emb q ct k o
    refine ⟨?_, ?_, ?_, ?_, ?_⟩ <;>
      simp [hybridSearch, combinedSearch, jsOr]
  · intro o
    exact ⟨jsOr_ne_zero _ _ (by norm_num), jsOr_ne_zero _ _ (by norm_num),
      jsOr_ne_zero _ _ (by norm_num), jsOr_ne_zero _ _ (by norm_num)⟩

/-- Witness for C9 at concrete arguments. -/
theorem zeroWeight_behaves_as_default_witness :
    hybridSearch exOps exTable [1] "gamma" "t" 2
        { vectorWeight := some 0 } =
      hybridSearch exOps exTable [1] "gamma" "t" 2 {} ∧
    jsOr (SearchOptions.mk none none none).vectorWeight (7/10) ≠ 0 :=
  ⟨(zeroWeight_behaves_as_default.1 exOps exTable [1] "gamma" "t" 2 {}).1,
   (zeroWeight_behaves_as_default.2 ⟨none, none, none⟩).1⟩

/-! ## C8: unsupported embedding widths are skipped, not rejected -/

/-- C8 counterexample: for a model with no supported dimension the
benchmark step returns a skip outcome; no validation error is raised. -/
theorem unsupportedDimension_cex :
    benchmarkVectorStep exOps (fun _ => exTable) "unsupported-model" [] "t" 5 =
      .ok .skipped ∧
    ∀ e, benchmarkVectorStep exOps (fun _ => exTable) "unsupported-model" []
      "t" 5 ≠ .error e := by
  refine ⟨rfl, fun e h => ?_⟩
  rw [show benchmarkVectorStep exOps (fun _ => exTable) "unsupported-model"
      [] "t" 5 = .ok .skipped from rfl] at h
  exact Except.noConfusion h

/-- C8 amended: a model whose dimension lookup fails is skipped by the
orchestrator without raising an error and without querying any store
table; every supported lookup result is one of the shard widths 768, 1536,
3072. -/
theorem unsupportedDimension_skipped (ops : StoreOps) (tables : Nat → List Doc)
    (model : String) (emb : List ℚ) (ct : String) (topK : Nat)
    (h : getEmbeddingDimension model = none) :
    benchmarkVectorStep ops tables model emb ct topK = .ok .skipped ∧
    ∀ m d, getEmbeddingDimension m = some d →
      d = 768 ∨ d = 1536 ∨ d = 3072 := by
  constructor
  · simp [benchmarkVectorStep, h]
  · intro m d hd
    unfold getEmbeddingDimension at hd
    split at hd
    · exact Or.inr (Or.inl (Option.some.inj hd).symm)
    · split at hd
      · exact Or.inr (Or.inr (Option.some.inj hd).symm)
      · split at hd
        · exact Or.inl (Option.some.inj hd).symm
        · exact Option.noConfusion hd

/-- Witness for C8. -/
theorem unsupportedDimension_skipped_witness :
    benchmarkVectorStep exOps (fun _ => exTable) "mystery-model" [] "t" 1 =
      .ok .skipped :=
  (unsupportedDimension_skipped exOps (fun _ => exTable) "mystery-model" []
    "t" 1 (by decide)).1

/-! ## Counterexamples for C6, C3 and C1 -/

/-- C6 counterexample: a query whose extracted keyword set is empty makes
the hybrid search pass the empty pattern to `to_tsquery`, which fails, so
the call errors instead of degrading to vector-only ranking. -/
theorem hybrid_emptyKeywords_cex :
    hybridSearch exOps exTable [1] "is" "t" 2 {} =
      .error "syntax error in tsquery" := rfl

/-- C3 counterexample: invoking the hybrid strategy with the lexical
weight set to 0 does not reduce to the vector ranking — the falsy 0 falls
back to the default 0.3, and a strong lexical match reorders the two
documents even though both lie inside the over-fetch window. -/
theorem hybrid_zeroLexicalOption_cex :
    Except.map (List.map HCand.id)
        (hybridSearch cexOps exTable [0] "gamma" "t" 2
          { keywordWeight := some 0 }) = .ok [2, 1] ∧
    List.map VCand.id (vectorSearch cexOps exTable [0] "t" 2) = [1, 2] := by
  have hkw : extractKeywords "gamma" = ["gamma"] := by decide
  constructor
  · norm_num [hybridSearch, hybridFusion, hkw, jsOr, vBranch, kBranch, vkJoin,
      filterCT, sortAsc, sortDesc, List.insertionSort, List.orderedInsert,
      ascBy, descBy, hScore, hCand, cexOps, exTable, exDoc, exDoc2, Except.map]
  · norm_num [vectorSearch, vCand, filterCT, sortAsc, List.insertionSort,
      List.orderedInsert, ascBy, cexOps, exTable, exDoc, exDoc2]

theorem combinedSearch_c1_run :
    combinedSearch c1Ops c1Table [0] "a_c" "t" 1 {} = .ok [c1Cand] := by
  have hkw : extractKeywords "a_c" = ["a_c"] := by decide
  have hil : ilikeContains "abc" "a_c" = true := by decide
  norm_num [combinedSearch, combinedFusion, hkw, jsOr, vBranch, kBranch,
    bBranch, vkJoin, vkbJoin, filterCT, sortAsc, sortDesc,
    List.insertionSort, List.orderedInsert, ascBy, descBy, cScore,
    boostedScore, hil, cCand, c1Ops, c1Table, c1Doc, c1Cand]

/-- C1 counterexample: for the query `"a_c"` the returned candidate's
content `"abc"` does not contain the query text, yet its final score is
the boosted `1.2 ×` sum, because `_` is a wildcard of the `ILIKE`
pattern the code builds from the raw query. -/
theorem combined_phraseBoost_cex :
    combinedSearch c1Ops c1Table [0] "a_c" "t" 1 {} = .ok [c1Cand] ∧
    containsSub (lowerL "a_c") (lowerL c1Cand.content) = false ∧
    c1Cand.similarity ≠ c1Cand.vectorSimilarity * (1/2) +
      c1Cand.keywordSimilarity * (3/10) + c1Cand.bm25Similarity * (1/5) :=
  ⟨combinedSearch_c1_run, by decide, by norm_num [c1Cand]⟩

/-! ## C5: the vector strategy -/

/-- C5: the vector strategy returns at most `topK` candidates, sorted by
descending similarity; every candidate comes from a stored document of the
requested content type with similarity `1 - dist(embedding, query)`; and a
document whose embedding equals the query vector gets similarity 1
whenever the distance operator is a distance (`dist emb emb = 0`). -/
theorem vectorSearch_spec (ops : StoreOps) (table : List Doc) (emb : List ℚ)
    (ct : String) (topK : Nat) :
    (vectorSearch ops table emb ct topK).length ≤ topK ∧
    List.Sorted (fun a b : VCand => b.similarity ≤ a.similarity)
      (vectorSearch ops table emb ct topK) ∧
    (∀ c ∈ vectorSearch ops table emb ct topK,
      ∃ d, d ∈ table ∧ d.contentType = ct ∧ c = vCand ops emb d ∧
        c.similarity = 1 - ops.dist d.embedding emb) ∧
    (∀ d, d ∈ table → d.contentType = ct → d.embedding = emb →
      ops.dist emb emb = 0 → (vCand ops emb d).similarity = 1) := by
  refine ⟨?_, ?_, ?_, ?_⟩
  · simp only [vectorSearch, List.length_map]
    exact List.length_take_le _ _
  · have hs : List.Sorted (ascBy (fun d => ops.dist d.embedding emb))
        (sortAsc (fun d => ops.dist d.embedding emb) (filterCT table ct)) :=
      List.sorted_insertionSort _ _
    have ht : List.Sorted (ascBy (fun d => ops.dist d.embedding emb))
        ((sortAsc (fun d => ops.dist d.embedding emb)
          (filterCT table ct)).take topK) :=
      hs.sublist (List.take_sublist _ _)
    exact ht.map _ (fun a b h => sub_le_sub_left h 1)
  · intro c hc
    obtain ⟨d, hd, rfl⟩ := List.mem_map.mp hc
    have hd2 : d ∈ filterCT table ct := by
      have := List.mem_of_mem_take hd
      simpa [sortAsc] using this
    obtain ⟨hdt, hdp⟩ := List.mem_filter.mp hd2
    exact ⟨d, hdt, by simpa using hdp, rfl, rfl⟩
  · intro d _ _ hde hdist
    simp [vCand, hde, hdist]

/-- Witness for C5: concrete store, exact-embedding query. -/
theorem vectorSearch_spec_witness :
    (vectorSearch exOps exTable [1] "t" 2).length ≤ 2 ∧
    (vCand exOps [1] exDoc).similarity = 1 :=
  ⟨(vectorSearch_spec exOps exTable [1] "t" 2).1,
   (vectorSearch_spec exOps exTable [1] "t" 2).2.2.2 exDoc (by decide)
     (by decide) (by decide) (by decide)⟩

/-! ## C6 (amended): empty lexical branch degrades to vector-only -/

theorem vkJoin_nil (V : List (Doc × ℚ)) :
    vkJoin V [] = V.map (fun v => ⟨v.1, some v.2, none⟩) := by
  simp only [vkJoin, List.filter_nil, List.map_nil, List.append_nil]
  induction V with
  | nil => rfl
  | cons v V ih => simp [List.flatMap_cons, ih]

/-- C6 amended: when the extracted keyword set is nonempty but no stored
document lexically matches the pattern, the hybrid search succeeds and
returns exactly the vector ranking with every score multiplied by the
effective vector weight (assumed nonnegative).  (With an *empty* keyword
set the call instead fails on `to_tsquery`, see the counterexample.) -/
theorem hybrid_noLexicalMatches (ops : StoreOps) (table : List Doc)
    (emb : List ℚ) (queryText ct : String) (topK : Nat) (o : SearchOptions)
    (hkw : extractKeywords queryText ≠ [])
    (hwv : 0 ≤ jsOr o.vectorWeight (7/10))
    (hmatch : ∀ d ∈ table, ops.tsMatch d.content
      (String.intercalate " | " (extractKeywords queryText)) = false) :
    Except.map (List.map (fun c => (c.id, c.similarity)))
        (hybridSearch ops table emb queryText ct topK o) =
      .ok ((vectorSearch ops table emb ct topK).map
        (fun c => (c.id, c.similarity * jsOr o.vectorWeight (7/10)))) := by
  set wv := jsOr o.vectorWeight (7/10) with hwvdef
  set wk := jsOr o.keywordWeight (3/10) with hwkdef
  set key : Doc → ℚ := fun d => ops.dist d.embedding emb with hkey
  have hempty : (extractKeywords queryText).isEmpty = false := by
    cases h : extractKeywords queryText with
    | nil => exact absurd h hkw
    | cons a l => rfl
  have hkfilter : table.filter (fun d => d.contentType == ct &&
      ops.tsMatch d.content
        (String.intercalate " | " (extractKeywords queryText))) = [] := by
    rw [List.filter_eq_nil_iff]
    intro d hd
    simp [hmatch d hd]
  simp only [hybridSearch, hybridFusion, hempty, Bool.false_eq_true,
    if_false, kBranch, hkfilter, ← hwvdef, ← hwkdef]
  simp only [sortDesc, List.insertionSort, List.take_nil, List.map_nil,
    vkJoin_nil, vBranch, ← hkey, List.map_map]
  set g : Doc → HRow :=
    fun d => ⟨d, some (1 - key d), none⟩ with hg
  have hgeq : ((fun v : Doc × ℚ => (⟨v.1, some v.2, none⟩ : HRow)) ∘
      fun d => (d, 1 - key d)) = g := rfl
  rw [hgeq]
  have hsortedS : List.Sorted (ascBy key)
      (sortAsc key (filterCT table ct)) := List.sorted_insertionSort _ _
  have hsorted : List.Sorted (descBy (hScore wv wk))
      (((sortAsc key (filterCT table ct)).take (topK * 2)).map g) := by
    refine List.Pairwise.map _ ?_ (hsortedS.sublist (List.take_sublist _ _))
    intro a b h
    show hScore wv wk (g b) ≤ hScore wv wk (g a)
    simp only [hScore, hg, Option.getD_some, Option.getD_none]
    exact add_le_add_right
      (mul_le_mul_of_nonneg_right (sub_le_sub_left h 1) hwv) _
  rw [List.Sorted.insertionSort_eq hsorted]
  rw [← List.map_take, List.take_take, Nat.min_eq_left (by omega)]
  simp only [Except.map, List.map_map, vectorSearch]
  refine congrArg Except.ok ?_
  rw [← hkey]
  apply List.map_congr_left
  intro d hd
  simp [Function.comp, hCand, hScore, hg, vCand]

/-! ## C3 (amended): the fusion with lexical weight 0 ranks like the
vector strategy -/

theorem filter_beq_single_of_nodup [DecidableEq β] (f : α → β) :
    ∀ (l : List α), (l.map f).Nodup → ∀ y : β,
      l.filter (fun x => f x == y) = [] ∨
      ∃ x, l.filter (fun x => f x == y) = [x] := by
  intro l
  induction l with
  | nil => exact fun _ y => Or.inl rfl
  | cons a l ih =>
    intro hnd y
    rw [List.map_cons, List.nodup_cons] at hnd
    by_cases hy : (f a == y) = true
    · refine Or.inr ⟨a, ?_⟩
      have hnil : l.filter (fun x => f x == y) = [] := by
        rw [List.filter_eq_nil_iff]
        intro x hx hfx
        have h1 : f x = y := by simpa using hfx
        have h2 : f a = y := by simpa using hy
        exact hnd.1 (h2 ▸ h1 ▸ List.mem_map_of_mem f hx)
      rw [List.filter_cons, if_pos hy, hnil]
    · rw [List.filter_cons, if_neg hy]
      exact ih hnd.2 y

set_option linter.unusedTactic false in
theorem vkJoin_eq_of_nodup (V K : List (Doc × ℚ))
    (h : (K.map (fun k => k.1.id)).Nodup) :
    vkJoin V K =
      V.map (fun v => ⟨v.1, some v.2,
        ((K.filter (fun k => k.1.id == v.1.id)).head?).map (fun k => k.2)⟩) ++
      ((K.filter (fun k => V.all (fun v => !(v.1.id == k.1.id)))).map
        (fun k => ⟨k.1, none, some k.2⟩)) := by
  unfold vkJoin
  congr 1
  induction V with
  | nil => rfl
  | cons v V ih =>
    rw [List.flatMap_cons, List.map_cons, ih]
    congr 1
    rcases filter_beq_single_of_nodup (fun k => k.1.id) K h v.1.id with
      h1 | ⟨x, h1⟩
    · rw [h1]; rfl
    · rw [h1]; rfl

theorem nodup_branch_ids (table : List Doc)
    (hids : (table.map Doc.id).Nodup) (p : Doc → Bool) (key sc : Doc → ℚ)
    (n : Nat) :
    ((((sortDesc key (table.filter p)).take n).map
      (fun d => (d, sc d))).map (fun k => k.1.id)).Nodup := by
  rw [List.map_map]
  have h0 : ((table.filter p).map Doc.id).Nodup :=
    hids.sublist ((List.filter_sublist _).map _)
  have h1 : ((sortDesc key (table.filter p)).map Doc.id).Nodup :=
    ((List.perm_insertionSort _ _).map Doc.id).nodup_iff.mpr h0
  have h2 : (((sortDesc key (table.filter p)).take n).map Doc.id).Nodup :=
    h1.sublist ((List.take_sublist _ _).map _)
  exact h2

theorem hScore_zero_wk (wv : ℚ) (hwv : 0 ≤ wv) (kf : Doc → ℚ)
    (S : List Doc) (hS : List.Sorted (ascBy kf) S)
    (hS1 : ∀ d ∈ S, kf d ≤ 1)
    (F : Doc → HRow) (hF : ∀ d, (F d).vs = some (1 - kf d))
    (L : List (Doc × ℚ)) :
    List.Sorted (descBy (hScore wv 0))
      (S.map F ++ L.map (fun k => ⟨k.1, none, some k.2⟩)) := by
  show List.Pairwise (descBy (hScore wv 0)) _
  rw [List.pairwise_append]
  refine ⟨?_, ?_, ?_⟩
  · refine List.Pairwise.map _ ?_ hS
    intro a b h
    show hScore wv 0 (F b) ≤ hScore wv 0 (F a)
    simp only [hScore, hF a, hF b, Option.getD_some, mul_zero, add_zero]
    exact mul_le_mul_of_nonneg_right (sub_le_sub_left h 1) hwv
  · refine List.pairwise_of_forall_mem_list ?_
    intro a ha b hb
    obtain ⟨k1, _, rfl⟩ := List.mem_map.mp ha
    obtain ⟨k2, _, rfl⟩ := List.mem_map.mp hb
    show hScore wv 0 _ ≤ hScore wv 0 _
    simp [hScore]
  · intro a ha b hb
    obtain ⟨d, hd, rfl⟩ := List.mem_map.mp ha
    obtain ⟨k, _, rfl⟩ := List.mem_map.mp hb
    show hScore wv 0 _ ≤ hScore wv 0 (F d)
    simp only [hScore, hF d, Option.getD_some, Option.getD_none, mul_zero,
      add_zero, zero_mul, zero_add]
    exact mul_nonneg (sub_nonneg.mpr (hS1 d hd)) hwv

theorem take_append_of_cases (A B : List α) (n : Nat)
    (h : B = [] ∨ n ≤ A.length) : (A ++ B).take n = A.take n := by
  rcases h with rfl | h
  · rw [List.append_nil]
  · exact List.take_append_of_le_length h

/-- C3 amended: with an *effective* lexical weight of 0 (not reachable
through the options object, whose falsy weights fall back to defaults) and
a nonnegative vector weight, over a store with unique ids in which every
document of the requested type has distance at most 1 to the query (so no
negatively-scored vector candidate can be outranked by a zero-scored
keyword-only row), the hybrid fusion returns exactly the vector strategy's
ranking. -/
theorem hybridFusion_zeroLexical (ops : StoreOps) (table : List Doc)
    (emb : List ℚ) (queryText ct : String) (topK : Nat) (wv : ℚ)
    (hkw : extractKeywords queryText ≠ [])
    (hwv : 0 ≤ wv)
    (hdist : ∀ d ∈ table, d.contentType = ct → ops.dist d.embedding emb ≤ 1)
    (hids : (table.map Doc.id).Nodup) :
    Except.map (List.map HCand.id)
        (hybridFusion ops table emb queryText ct topK wv 0) =
      .ok ((vectorSearch ops table emb ct topK).map VCand.id) := by
  have hempty : (extractKeywords queryText).isEmpty = false := by
    cases h : extractKeywords queryText with
    | nil => exact absurd h hkw
    | cons a l => rfl
  simp only [hybridFusion, hempty, Bool.false_eq_true, if_false]
  rw [vkJoin_eq_of_nodup _ _ (by
    unfold kBranch
    exact nodup_branch_ids table hids _ _ _ _)]
  rw [show vBranch ops table emb ct (topK * 2) =
      ((sortAsc (fun d => ops.dist d.embedding emb)
        (filterCT table ct)).take (topK * 2)).map
        (fun d => (d, 1 - ops.dist d.embedding emb)) from rfl]
  rw [List.map_map]
  have hdistS : ∀ d ∈ (sortAsc (fun d => ops.dist d.embedding emb)
      (filterCT table ct)).take (topK * 2), ops.dist d.embedding emb ≤ 1 := by
    intro d hd
    have h1 : d ∈ filterCT table ct := by
      have h2 := List.mem_of_mem_take hd
      simpa [sortAsc] using h2
    obtain ⟨h2, h3⟩ := List.mem_filter.mp h1
    exact hdist d h2 (by simpa using h3)
  have hsorted := hScore_zero_wk wv hwv (fun d => ops.dist d.embedding emb)
    ((sortAsc (fun d => ops.dist d.embedding emb)
      (filterCT table ct)).take (topK * 2))
    ((List.sorted_insertionSort _ _).sublist (List.take_sublist _ _))
    hdistS
    ((fun v : Doc × ℚ =>
      (⟨v.1, some v.2,
        Option.map (fun k => k.2)
          (List.filter (fun k => k.1.id == v.1.id)
            (kBranch ops table
              (" | ".intercalate (extractKeywords queryText)) ct
              (topK * 2))).head?⟩ : HRow)) ∘
      fun d => (d, 1 - ops.dist d.embedding emb))
    (fun d => rfl)
    (List.filter
      (fun k =>
        (List.map (fun d => (d, 1 - ops.dist d.embedding emb))
          (List.take (topK * 2)
            (sortAsc (fun d => ops.dist d.embedding emb)
              (filterCT table ct)))).all fun v => !(v.1.id == k.1.id))
      (kBranch ops table (" | ".intercalate (extractKeywords queryText)) ct
        (topK * 2)))
  rw [show sortDesc (hScore wv 0) _ = _ from
    List.Sorted.insertionSort_eq hsorted]
  set G : Doc → HRow :=
    (fun v : Doc × ℚ =>
      (⟨v.1, some v.2,
        Option.map (fun k => k.2)
          (List.filter (fun k => k.1.id == v.1.id)
            (kBranch ops table
              (" | ".intercalate (extractKeywords queryText)) ct
              (topK * 2))).head?⟩ : HRow)) ∘
      fun d => (d, 1 - ops.dist d.embedding emb) with hG
  set Sfull : List Doc :=
    sortAsc (fun d => ops.dist d.embedding emb) (filterCT table ct) with hSfull
  set kB : List (Doc × ℚ) :=
    kBranch ops table (" | ".intercalate (extractKeywords queryText)) ct
      (topK * 2) with hkB
  set Vp : List HRow := List.map G (List.take (topK * 2) Sfull) with hVp
  set Ko : List HRow :=
    List.map (fun k => (⟨k.1, none, some k.2⟩ : HRow))
      (List.filter
        (fun k =>
          (List.map (fun d => (d, 1 - ops.dist d.embedding emb))
            (List.take (topK * 2) Sfull)).all
              fun v => !(v.1.id == k.1.id)) kB) with hKo
  have htake : List.take topK (Vp ++ Ko) = List.take topK Vp := by
    by_cases hlen : topK ≤ Vp.length
    · exact List.take_append_of_le_length hlen
    · have hSfull_take : List.take (topK * 2) Sfull = Sfull := by
        apply List.take_of_length_le
        have h1 : Vp.length = min (topK * 2) Sfull.length := by
          rw [hVp, List.length_map, List.length_take]
        omega
      have hKo_nil : Ko = [] := by
        rw [hKo, List.map_eq_nil_iff, List.filter_eq_nil_iff]
        intro k hk hall
        have hkdoc : k.1 ∈ filterCT table ct := by
          rw [hkB] at hk
          unfold kBranch at hk
          obtain ⟨d2, hd2, rfl⟩ := List.mem_map.mp hk
          have hd3 : d2 ∈ table.filter
              (fun d => d.contentType == ct && ops.tsMatch d.content
                (" | ".intercalate (extractKeywords queryText))) := by
            have h4 := List.mem_of_mem_take hd2
            simpa [sortDesc] using h4
          obtain ⟨h5, h6⟩ := List.mem_filter.mp hd3
          rw [Bool.and_eq_true] at h6
          exact List.mem_filter.mpr ⟨h5, h6.1⟩
        have h7 : k.1 ∈ List.take (topK * 2) Sfull := by
          rw [hSfull_take, hSfull]
          simpa [sortAsc] using hkdoc
        have h8 := List.all_eq_true.mp hall
          ⟨k.1, 1 - ops.dist k.1.embedding emb⟩
          (List.mem_map_of_mem _ h7)
        simp at h8
      rw [hKo_nil, List.append_nil]
  rw [htake, hVp, ← List.map_take, List.take_take,
    Nat.min_eq_left (by omega)]
  rw [show vectorSearch ops table emb ct topK =
    (List.take topK Sfull).map (vCand ops emb) from rfl]
  simp only [Except.map, List.map_map]
  refine congrArg Except.ok ?_
  apply List.map_congr_left
  intro d hd
  rfl

/-- Witness for C3's amended theorem at a concrete store. -/
theorem hybridFusion_zeroLexical_witness :
    Except.map (List.map HCand.id)
        (hybridFusion exOps exTable [1] "gamma" "t" 2 (7/10) 0) =
      .ok ((vectorSearch exOps exTable [1] "t" 2).map VCand.id) :=
  hybridFusion_zeroLexical exOps exTable [1] "gamma" "t" 2 (7/10)
    (by decide) (by norm_num) (by decide) (by decide)

/-- Witness for C6's amended theorem at a concrete store. -/
theorem hybrid_noLexicalMatches_witness :
    Except.map (List.map (fun c => (c.id, c.similarity)))
        (hybridSearch exOps exTable [1] "gamma" "t" 2 {}) =
      .ok ((vectorSearch exOps exTable [1] "t" 2).map
        (fun c => (c.id, c.similarity *
          jsOr (SearchOptions.mk none none none).vectorWeight (7/10)))) :=
  hybrid_noLexicalMatches exOps exTable [1] "gamma" "t" 2 {} (by decide)
    (by norm_num [jsOr]) (by decide)

/-! ## C1 (amended): the phrase boost is an `ILIKE` pattern match -/

theorem likeMatch_percent (p t : List Char) :
    likeMatch ('%' :: p) t = true ↔
      ∃ t2, t2 <:+ t ∧ likeMatch p t2 = true := by
  have h : likeMatch ('%' :: p) t =
      t.tails.any (fun t2 => likeMatch p t2) := by
    cases p <;> cases t <;> simp [likeMatch]
  rw [h, List.any_eq_true]
  constructor
  · rintro ⟨t2, ht2, hm⟩
    exact ⟨t2, (List.mem_tails _ _).mp ht2, hm⟩
  · rintro ⟨t2, ht2, hm⟩
    exact ⟨t2, (List.mem_tails _ _).mpr ht2, hm⟩

theorem likeMatch_literal_nil (c : Char) (p : List Char)
    (hc1 : c ≠ '%') (hc2 : c ≠ '_') (hc3 : c ≠ '\\') :
    likeMatch (c :: p) [] = false := by
  cases p <;> simp [likeMatch, hc1, hc2, hc3]

theorem likeMatch_literal_cons (c : Char) (p : List Char) (a : Char)
    (t : List Char)
    (hc1 : c ≠ '%') (hc2 : c ≠ '_') (hc3 : c ≠ '\\') :
    likeMatch (c :: p) (a :: t) = (decide (a = c) && likeMatch p t) := by
  cases p <;> simp [likeMatch, hc1, hc2, hc3]

theorem likeMatch_append_percent (q : List Char)
    (hq : ∀ c ∈ q, c ≠ '%' ∧ c ≠ '_' ∧ c ≠ '\\') :
    ∀ t, likeMatch (q ++ ['%']) t = true ↔ q <+: t := by
  induction q with
  | nil =>
    intro t
    rw [List.nil_append]
    rw [likeMatch_percent]
    simp only [ List.nil_prefix, iff_true]
    exact ⟨[], List.nil_suffix, rfl⟩
  | cons c q ih =>
    intro t
    obtain ⟨hc1, hc2, hc3⟩ := hq c (List.mem_cons_self c q)
    have ih2 := ih (fun x hx => hq x (List.mem_cons_of_mem c hx))
    cases t with
    | nil =>
      rw [List.cons_append, likeMatch_literal_nil c _ hc1 hc2 hc3]
      simp
    | cons a t2 =>
      rw [List.cons_append, likeMatch_literal_cons c _ a t2 hc1 hc2 hc3,
        Bool.and_eq_true, decide_eq_true_iff, ih2, List.cons_prefix_cons]
      constructor
      · rintro ⟨h1, h2⟩; exact ⟨h1.symm, h2⟩
      · rintro ⟨h1, h2⟩; exact ⟨h1.symm, h2⟩

theorem containsSub_eq_true_iff (n h : List Char) :
    containsSub n h = true ↔ n <:+: h := by
  unfold containsSub
  rw [List.any_eq_true]
  constructor
  · rintro ⟨i, _, hpre⟩
    rw [ List.isPrefixOf_iff_prefix] at hpre
    exact List.infix_iff_prefix_suffix.mpr ⟨_, hpre, List.drop_suffix i h⟩
  · intro hinf
    obtain ⟨s, t2, hst⟩ := hinf
    refine ⟨s.length, ?_, ?_⟩
    · rw [List.mem_range]
      have := congrArg List.length hst
      simp only [List.length_append] at this
      omega
    · rw [ List.isPrefixOf_iff_prefix, ← hst, List.append_assoc,
        List.drop_left]
      exact List.prefix_append n t2

theorem ilikeContains_eq_containsSub (s q : String)
    (hq : noLikeMeta q = true) :
    ilikeContains s q = containsSub (lowerL q) (lowerL s) := by
  have hq2 : ∀ c ∈ lowerL q, c ≠ '%' ∧ c ≠ '_' ∧ c ≠ '\\' := by
    intro c hc
    have h1 := List.all_eq_true.mp hq c hc
    simpa [and_assoc] using h1
  rw [Bool.eq_iff_iff, containsSub_eq_true_iff]
  unfold ilikeContains
  rw [likeMatch_percent]
  constructor
  · rintro ⟨t2, hsuf, hm⟩
    rw [likeMatch_append_percent _ hq2] at hm
    exact List.infix_iff_prefix_suffix.mpr ⟨t2, hm, hsuf⟩
  · intro hinf
    obtain ⟨t2, hpre, hsuf⟩ := List.infix_iff_prefix_suffix.mp hinf
    exact ⟨t2, hsuf, (likeMatch_append_percent _ hq2 t2).mpr hpre⟩

theorem cCand_score (queryText : String) (wv wk wb : ℚ)
    (hwv : wv ≠ 0) (hwk : wk ≠ 0) (hwb : wb ≠ 0) (r : CRow) :
    (cCand queryText wv wk wb r).similarity =
      if ilikeContains (cCand queryText wv wk wb r).content queryText = true
      then
        ((cCand queryText wv wk wb r).vectorSimilarity * wv +
         (cCand queryText wv wk wb r).keywordSimilarity * wk +
         (cCand queryText wv wk wb r).bm25Similarity * wb) * (6/5)
      else
        (cCand queryText wv wk wb r).vectorSimilarity * wv +
        (cCand queryText wv wk wb r).keywordSimilarity * wk +
        (cCand queryText wv wk wb r).bm25Similarity * wb := by
  simp only [cCand, boostedScore, cScore, div_mul_cancel₀ _ hwv,
    div_mul_cancel₀ _ hwk, div_mul_cancel₀ _ hwb]

/-- C1 amended: every candidate the combined strategy returns carries the
weighted three-branch sum (absent branch scores coalesced to 0) as its
final score, multiplied by 1.2 exactly when the document content matches
the `ILIKE '%' || query || '%'` pattern built from the raw query text;
for query texts free of the `LIKE` metacharacters `%`, `_` and `\` this
pattern match coincides with case-insensitive substring containment of the
query in the content. -/
theorem combined_phraseBoost (ops : StoreOps) (table : List Doc)
    (emb : List ℚ) (queryText ct : String) (topK : Nat) (o : SearchOptions)
    (res : List CCand)
    (h : combinedSearch ops table emb queryText ct topK o = .ok res) :
    (∀ c ∈ res,
      c.similarity =
        if ilikeContains c.content queryText = true then
          (c.vectorSimilarity * jsOr o.vectorWeight (1/2) +
           c.keywordSimilarity * jsOr o.keywordWeight (3/10) +
           c.bm25Similarity * jsOr o.bm25Weight (1/5)) * (6/5)
        else
          c.vectorSimilarity * jsOr o.vectorWeight (1/2) +
          c.keywordSimilarity * jsOr o.keywordWeight (3/10) +
          c.bm25Similarity * jsOr o.bm25Weight (1/5)) ∧
    (∀ s : String, noLikeMeta queryText = true →
      ilikeContains s queryText =
        containsSub (lowerL queryText) (lowerL s)) := by
  refine ⟨?_, fun s hs => ilikeContains_eq_containsSub s queryText hs⟩
  intro c hc
  simp only [combinedSearch, combinedFusion] at h
  split at h
  · exact absurd h (by simp)
  · rw [Except.ok.injEq] at h
    subst h
    obtain ⟨r, _, rfl⟩ := List.mem_map.mp hc
    exact cCand_score queryText _ _ _
      (jsOr_ne_zero _ _ (by norm_num)) (jsOr_ne_zero _ _ (by norm_num))
      (jsOr_ne_zero _ _ (by norm_num)) r

/-- Witness for C1's amended theorem: the concrete boosted run. -/
theorem combined_phraseBoost_witness :
    c1Cand.similarity =
      if ilikeContains c1Cand.content "a_c" = true then
        (c1Cand.vectorSimilarity * jsOr none (1/2) +
         c1Cand.keywordSimilarity * jsOr none (3/10) +
         c1Cand.bm25Similarity * jsOr none (1/5)) * (6/5)
      else
        c1Cand.vectorSimilarity * jsOr none (1/2) +
        c1Cand.keywordSimilarity * jsOr none (3/10) +
        c1Cand.bm25Similarity * jsOr none (1/5) :=
  (combined_phraseBoost c1Ops c1Table [0] "a_c" "t" 1 {} [c1Cand]
    combinedSearch_c1_run).1 c1Cand (List.mem_singleton.mpr rfl)
